import Mathlib

/-!
Shallow embedding of the document ingestion and lexical retrieval core of the
repository (class `DocumentProcessor`): free-text chunking (`chunkText`),
tabular chunking (`processCSV`), file dispatch (`processFile`) and
keyword-based retrieval (`findRelevantChunks`), together with proofs about
their behaviour.  JavaScript strings are modelled as lists of characters and
the JavaScript string operations used by the source (`split`, `trim`,
`includes`, `toLowerCase`, `join`) are embedded as executable functions on
those lists.
-/

/-- JavaScript strings, modelled as lists of characters. -/
abbrev Str : Type := List Char

/-- The `DocumentChunk` record as used by `DocumentProcessor`: the originating
`fileName`, the textual `content`, and the zero-based `index` of the chunk
within one ingestion call. -/
structure DocumentChunk where
  fileName : Str
  content : Str
  index : Nat
  deriving DecidableEq, Repr

/-- JavaScript `hay.includes(sub)`: `sub` occurs as a contiguous substring of
`hay`.  In JavaScript this is true for every `hay` when `sub` is empty. -/
def includes (hay sub : Str) : Bool := decide (sub <:+: hay)

/-- JavaScript `s.toLowerCase()` (ASCII case mapping, which is what the source
exercises). -/
def lowerStr (s : Str) : Str := s.map Char.toLower

/-- JavaScript `s.trim()`: strip leading and trailing whitespace. -/
def trimStr (s : Str) : Str :=
  ((s.dropWhile Char.isWhitespace).reverse.dropWhile Char.isWhitespace).reverse

/-- JavaScript `s.split(sep)` for a one-character separator: splitting the
empty string gives `[""]`, and adjacent separators produce empty fields. -/
def splitOnChar (sep : Char) : Str → List Str
  | [] => [[]]
  | c :: cs =>
    if c = sep then [] :: splitOnChar sep cs
    else
      match splitOnChar sep cs with
      | [] => [[c]]
      | p :: ps => (c :: p) :: ps

/-- JavaScript `parts.join(sep)`. -/
def joinSep (sep : Str) : List Str → Str
  | [] => []
  | [s] => s
  | s :: ss => s ++ sep ++ joinSep sep ss

/-- `CHUNK_SIZE` of `DocumentProcessor.chunkText` (the spec's
`TEXT_CHUNK_SIZE`). -/
def CHUNK_SIZE : Nat := 4000

/-- The loop of `chunkText`: iteration `k` has loop counter
`i = CHUNK_SIZE * k` and pushes `text.substring(i, i + CHUNK_SIZE)`; the loop
runs while `i < text.length`, i.e. for `⌈text.length / CHUNK_SIZE⌉`
iterations. -/
def chunkContents (text : Str) : List Str :=
  (List.range ((text.length + (CHUNK_SIZE - 1)) / CHUNK_SIZE)).map
    fun k => (text.drop (CHUNK_SIZE * k)).take CHUNK_SIZE

/-- Tags every produced content with the file name and its `index`; the source
uses `chunks.length` at push time, which is exactly the running position. -/
def withIndex (fileName : Str) : List Str → Nat → List DocumentChunk
  | [], _ => []
  | c :: cs, i => ⟨fileName, c, i⟩ :: withIndex fileName cs (i + 1)

/-- `DocumentProcessor.chunkText(text, fileName)`. -/
def chunkText (text fileName : Str) : List DocumentChunk :=
  withIndex fileName (chunkContents text) 0

theorem chunkContents_nil : chunkContents [] = [] := rfl

/-- Unfolding of the chunking loop: a non-empty text yields its first
`CHUNK_SIZE` characters followed by the chunking of the remainder. -/
theorem chunkContents_cons (text : Str) (h : text ≠ []) :
    chunkContents text =
      text.take CHUNK_SIZE :: chunkContents (text.drop CHUNK_SIZE) := by
  have hL : 0 < text.length := List.length_pos.mpr h
  have hn : (text.length + (CHUNK_SIZE - 1)) / CHUNK_SIZE =
      ((text.drop CHUNK_SIZE).length + (CHUNK_SIZE - 1)) / CHUNK_SIZE + 1 := by
    simp only [List.length_drop, CHUNK_SIZE]
    omega
  unfold chunkContents
  rw [hn, List.range_succ_eq_map, List.map_cons, List.map_map]
  refine List.cons_eq_cons.mpr ⟨by simp, ?_⟩
  apply List.map_congr_left
  intro k _
  simp only [Function.comp_apply, List.drop_drop]
  congr 2
  simp [Nat.mul_succ, Nat.add_comm]

theorem chunkContents_eq_nil_iff (text : Str) : chunkContents text = [] ↔ text = [] := by
  constructor
  · intro hc
    by_contra hne
    rw [chunkContents_cons text hne] at hc
    exact List.cons_ne_nil _ _ hc
  · intro h
    subst h
    rfl

theorem chunkContents_flatten (text : Str) : (chunkContents text).flatten = text := by
  by_cases h : text = []
  · subst h; rfl
  · have ih := chunkContents_flatten (text.drop CHUNK_SIZE)
    rw [chunkContents_cons text h, List.flatten_cons, ih, List.take_append_drop]
termination_by text.length
decreasing_by
  simp only [List.length_drop, CHUNK_SIZE]
  have : 0 < text.length := List.length_pos.mpr h
  omega

theorem chunkContents_length (text : Str) :
    (chunkContents text).length = (text.length + (CHUNK_SIZE - 1)) / CHUNK_SIZE := by
  simp [chunkContents]

/-- Every produced content except possibly the last one has exactly
`CHUNK_SIZE` characters. -/
theorem chunkContents_dropLast (text : Str) :
    ∀ c ∈ (chunkContents text).dropLast, c.length = CHUNK_SIZE := by
  intro c hc
  by_cases h : text = []
  · subst h; simp [chunkContents_nil] at hc
  · rw [chunkContents_cons text h] at hc
    cases hrest : chunkContents (text.drop CHUNK_SIZE) with
    | nil => rw [hrest] at hc; simp at hc
    | cons r rs =>
      rw [hrest, List.dropLast_cons_of_ne_nil (List.cons_ne_nil r rs)] at hc
      rcases List.mem_cons.mp hc with hhd | htl
      · have hdrop : text.drop CHUNK_SIZE ≠ [] := by
          intro hd
          rw [hd, chunkContents_nil] at hrest
          exact List.cons_ne_nil r rs hrest.symm
        have hlen : CHUNK_SIZE < text.length := by
          have := List.length_pos.mpr hdrop
          simp only [List.length_drop] at this
          omega
        subst hhd
        simp [List.length_take]
        omega
      · have ih := chunkContents_dropLast (text.drop CHUNK_SIZE)
        rw [hrest] at ih
        exact ih c htl
termination_by text.length
decreasing_by
  simp only [List.length_drop, CHUNK_SIZE]
  have : 0 < text.length := List.length_pos.mpr h
  omega

theorem withIndex_map_content (f : Str) :
    ∀ (l : List Str) (i : Nat), (withIndex f l i).map DocumentChunk.content = l := by
  intro l
  induction l with
  | nil => intro i; rfl
  | cons c cs ih => intro i; simp [withIndex, ih]

theorem withIndex_map_index (f : Str) :
    ∀ (l : List Str) (i : Nat),
      (withIndex f l i).map DocumentChunk.index = List.range' i l.length := by
  intro l
  induction l with
  | nil => intro i; rfl
  | cons c cs ih => intro i; simp [withIndex, ih, List.range']

theorem withIndex_length (f : Str) (l : List Str) (i : Nat) :
    (withIndex f l i).length = l.length := by
  have := congrArg List.length (withIndex_map_content f l i)
  simpa using this

theorem withIndex_eq_nil_iff (f : Str) (l : List Str) (i : Nat) :
    withIndex f l i = [] ↔ l = [] := by
  cases l <;> simp [withIndex]

/-- `ROWS_PER_CHUNK` of `DocumentProcessor.processCSV`. -/
def ROWS_PER_CHUNK : Nat := 30

/-- One row's fields: `headers.map((h, idx) => h.trim() + ": " + values[idx]?.trim())`.
The header list is walked with its index; `values[idx]` is the head of the
value list after dropping `idx` elements, so the walk keeps the two lists
aligned by taking the tail of the value list at each step.  An out-of-range
access yields JavaScript `undefined`, which the template literal stringifies
as the text `undefined`. -/
def renderFields : List Str → List Str → List Str
  | [], _ => []
  | h :: hs, vs =>
    (trimStr h ++ (": ").data ++
        (match vs with
          | v :: _ => trimStr v
          | [] => ("undefined").data)) :: renderFields hs vs.tail

/-- One CSV data row rendered as its field pairs joined by `" | "`. -/
def renderRow (headers : List Str) (row : Str) : Str :=
  joinSep (" | ").data (renderFields headers (splitOnChar ',' row))

/-- The content of one CSV chunk: the header banner followed by the rendered
rows of this batch, one per line. -/
def renderBatch (headers : List Str) (rows : List Str) : Str :=
  ("[CSV Header: ").data ++ joinSep (", ").data headers ++ ("]\n").data ++
    joinSep [Char.ofNat 10] (rows.map (renderRow headers))

/-- The batching loop of `processCSV`: iteration `k` has loop counter
`i = ROWS_PER_CHUNK * k` and renders `dataRows.slice(i, i + ROWS_PER_CHUNK)`;
the loop runs while `i < dataRows.length`. -/
def csvBatches (headers : List Str) (dataRows : List Str) : List Str :=
  (List.range ((dataRows.length + (ROWS_PER_CHUNK - 1)) / ROWS_PER_CHUNK)).map
    fun k => renderBatch headers ((dataRows.drop (ROWS_PER_CHUNK * k)).take ROWS_PER_CHUNK)

/-- `DocumentProcessor.processCSV`: split the text on newlines, trim every
row and drop the blank ones; `rows[0]` is the header row and the remaining
rows are batched.  When every line is blank, `rows` is empty and the source
dereferences `undefined` (`rows[0].split(',')` throws a `TypeError`), which is
modelled as `none`. -/
def processCSV (text fileName : Str) : Option (List DocumentChunk) :=
  match ((splitOnChar (Char.ofNat 10) text).map trimStr).filter (fun r => 0 < r.length) with
  | [] => none
  | r0 :: dataRows =>
    some (withIndex fileName (csvBatches (splitOnChar ',' r0) dataRows) 0)

/-- The text assembled by `processPDF` from the page texts delivered by the
external pdf library: `"--- Page i ---\n" + pageText + "\n\n"` for each page,
with `i` counted from 1. -/
def pdfPagesText : Nat → List Str → Str
  | _, [] => []
  | i, p :: ps =>
    ("--- Page ").data ++ (Nat.repr i).data ++ (" ---\n").data ++ p ++
      ("\n\n").data ++ pdfPagesText (i + 1) ps

/-- A file as `processFile` sees it: its name, its raw text (read for CSV
files) and the page texts the external pdf library extracts from it. -/
structure FileInput where
  name : Str
  text : Str
  pages : List Str

/-- The extension used for dispatch: `file.name.split('.').pop()?.toLowerCase()`.
`split` never returns an empty array, so `pop` always yields the last part. -/
def fileExtension (name : Str) : Str :=
  lowerStr ((splitOnChar (Char.ofNat 46) name).getLastD [])

/-- The message of the error thrown for an unrecognized extension. -/
def UNSUPPORTED_MSG : Str := ("Unsupported file type. Please upload PDF or CSV.").data

/-- `DocumentProcessor.processFile`: dispatch on the lower-cased extension;
`pdf` goes through the external text extraction and `chunkText`, `csv` goes
through `processCSV`, and anything else throws.  Thrown errors are modelled
as `Except.error` carrying the message. -/
def processFile (f : FileInput) : Except Str (List DocumentChunk) :=
  if fileExtension f.name = ("pdf").data then
    Except.ok (chunkText (pdfPagesText 1 f.pages) f.name)
  else if fileExtension f.name = ("csv").data then
    match processCSV f.text f.name with
    | some cs => Except.ok cs
    | none => Except.error (("TypeError: Cannot read properties of undefined").data)
  else
    Except.error UNSUPPORTED_MSG

/-- JavaScript word characters, the complement of the separator class in the
regular expression used to split the query. -/
def isWordChar (c : Char) : Bool := c.isAlphanum || c = Char.ofNat 95

/-- Worker for `query.split(/\W+/)`.  The first argument is the mode: `true`
while collecting the characters of the current field into the accumulator,
`false` while consuming a run of separator characters (the run as a whole is
one separator, so it emits no intermediate empty fields). -/
def splitNWGo : Bool → Str → Str → List Str
  | true, [], acc => [acc.reverse]
  | true, c :: cs, acc =>
    if isWordChar c then splitNWGo true cs (c :: acc)
    else acc.reverse :: splitNWGo false cs []
  | false, [], _ => [[]]
  | false, c :: cs, _ =>
    if isWordChar c then splitNWGo true cs [c] else splitNWGo false cs []

/-- JavaScript `query.split(/\W+/)`: maximal runs of non-word characters act
as separators; a separator run touching either end of the string contributes
an empty field there, and splitting the empty string gives `[""]`. -/
def splitNonWord (s : Str) : List Str := splitNWGo true s []

/-- The query term set: `query.toLowerCase().split(/\W+/).filter(t => t.length > 2)`. -/
def queryTerms (query : Str) : List Str :=
  (splitNonWord (lowerStr query)).filter (fun t => 2 < t.length)

/-- The fixed aggregation-intent keyword list of `findRelevantChunks`. -/
def AGGREGATION_KEYWORDS : List Str :=
  [("total").data, ("count").data, ("sum").data, ("average").data,
    ("summary").data, ("report").data, ("analyze").data, ("overview").data,
    ("all").data]

/-- Aggregation-intent detection: some keyword occurs as a substring of the
lower-cased query. -/
def isAggregation (query : Str) : Bool :=
  AGGREGATION_KEYWORDS.any fun term => includes (lowerStr query) term

/-- The score of one chunk content: start at 0, add 10 when the content
contains the full lower-cased query as a substring (exact-phrase bonus), then
add 1 for every query term contained in the content. -/
def score (query content : Str) : Nat :=
  (if includes (lowerStr content) (lowerStr query) then 10 else 0) +
    ((queryTerms query).filter (fun term => includes (lowerStr content) term)).length

/-- The `scoredChunks` array: every chunk paired with its score. -/
def scoredChunks (query : Str) (chunks : List DocumentChunk) : List (DocumentChunk × Nat) :=
  chunks.map fun c => (c, score query c.content)

/-- The ordering of `.sort((a, b) => b.score - a.score)`: score descending.
`Array.prototype.sort` is stable (ECMAScript 2019), and a stable sort under
this comparator is exactly `List.insertionSort` under this relation. -/
def byScoreDesc (a b : DocumentChunk × Nat) : Prop := b.2 ≤ a.2

instance : DecidableRel byScoreDesc := fun a b => Nat.decLe b.2 a.2

/-- The `relevant` array: scored chunks filtered to positive score, sorted by
score descending (stable), truncated to `limit` (doubled under
aggregation-intent), and projected back to the chunks. -/
def relevantOf (query : Str) (chunks : List DocumentChunk) (limit : Nat) : List DocumentChunk :=
  (((((scoredChunks query chunks).filter (fun item => 0 < item.2)).insertionSort
      byScoreDesc).take (if isAggregation query then limit * 2 else limit)).map Prod.fst)

/-- `DocumentProcessor.findRelevantChunks(query, chunks, limit)` (the spec's
`select`; the source's default for `limit` is 30).  Small corpora under
aggregation-intent are returned whole; when keyword selection comes back
empty on a non-empty collection, a prefix of the collection is returned as a
fallback. -/
def findRelevantChunks (query : Str) (chunks : List DocumentChunk) (limit : Nat) :
    List DocumentChunk :=
  if isAggregation query ∧ chunks.length < 50 then chunks
  else if relevantOf query chunks limit = [] ∧ chunks ≠ [] then
    chunks.take (if isAggregation query then 20 else 5)
  else relevantOf query chunks limit

/-- C3 counterexample: the three-space input consists entirely of whitespace
characters, yet `chunkText` produces a chunk (containing the whitespace)
rather than zero chunks. -/
theorem chunkText_whitespace_counterexample :
    (∀ c ∈ (("   ").data : Str), Char.isWhitespace c) ∧
      chunkText ("   ").data ("f").data ≠ [] := by decide

/-- C3 (amended): `chunkText` produces zero chunks exactly when the input is
the empty string; whitespace-only input of positive length is chunked like
any other text (the source never trims the free-text input). -/
theorem chunkText_eq_nil_iff (text fileName : Str) :
    chunkText text fileName = [] ↔ text = [] := by
  unfold chunkText
  rw [withIndex_eq_nil_iff, chunkContents_eq_nil_iff]

/-- C5: for free-text input of positive length `L`, `chunkText` produces
exactly `⌈L / CHUNK_SIZE⌉` chunks (computed as `(L + (CHUNK_SIZE - 1)) / 
CHUNK_SIZE` in natural division), every chunk content except possibly the
last has exactly `CHUNK_SIZE` characters, and concatenating the chunk
contents in position order reconstructs the input exactly. -/
theorem chunkText_count_size_roundtrip (text fileName : Str) (_h : 0 < text.length) :
    (chunkText text fileName).length = (text.length + (CHUNK_SIZE - 1)) / CHUNK_SIZE ∧
      (∀ c ∈ ((chunkText text fileName).map DocumentChunk.content).dropLast,
        c.length = CHUNK_SIZE) ∧
      ((chunkText text fileName).map DocumentChunk.content).flatten = text := by
  unfold chunkText
  rw [withIndex_map_content, withIndex_length]
  exact ⟨chunkContents_length text, chunkContents_dropLast text, chunkContents_flatten text⟩

/-- Witness for C5 at a concrete five-character input. -/
theorem chunkText_count_size_roundtrip_witness :
    0 < (("hello").data : Str).length ∧
      ((chunkText ("hello").data ("f").data).length =
          ((("hello").data : Str).length + (CHUNK_SIZE - 1)) / CHUNK_SIZE ∧
        (∀ c ∈ ((chunkText ("hello").data ("f").data).map DocumentChunk.content).dropLast,
          c.length = CHUNK_SIZE) ∧
        ((chunkText ("hello").data ("f").data).map DocumentChunk.content).flatten =
          ("hello").data) :=
  ⟨by decide, chunkText_count_size_roundtrip ("hello").data ("f").data (by decide)⟩

/-- C8: for both chunking variants the `index` values of a single invocation
are exactly `0..n-1` in output order: the index list is `List.range` of the
output length (contiguous, no gaps, no duplicates). -/
theorem chunk_positions_contiguous :
    (∀ text fileName, (chunkText text fileName).map DocumentChunk.index =
        List.range (chunkText text fileName).length) ∧
      (∀ text fileName cs, processCSV text fileName = some cs →
        cs.map DocumentChunk.index = List.range cs.length) := by
  constructor
  · intro text fileName
    unfold chunkText
    rw [withIndex_map_index, withIndex_length, List.range_eq_range']
  · intro text fileName cs hcs
    unfold processCSV at hcs
    rcases hsplit : ((splitOnChar (Char.ofNat 10) text).map trimStr).filter
        (fun r => 0 < r.length) with _ | ⟨r0, dataRows⟩
    · rw [hsplit] at hcs
      exact absurd hcs (by simp)
    · rw [hsplit] at hcs
      have hcs' : withIndex fileName (csvBatches (splitOnChar ',' r0) dataRows) 0 = cs :=
        Option.some.inj hcs
      rw [← hcs', withIndex_map_index, withIndex_length, List.range_eq_range']

/-- Witness for C8: the pdf variant on a concrete five-character text, and
the tabular variant on a concrete two-line CSV. -/
theorem chunk_positions_contiguous_witness :
    ((chunkText ("hello").data ("f").data).map DocumentChunk.index =
        List.range (chunkText ("hello").data ("f").data).length) ∧
      (([⟨("f.csv").data, ("[CSV Header: a, b]\na: 1 | b: 2").data, 0⟩] :
            List DocumentChunk).map DocumentChunk.index =
        List.range ([⟨("f.csv").data, ("[CSV Header: a, b]\na: 1 | b: 2").data, 0⟩] :
            List DocumentChunk).length) :=
  ⟨chunk_positions_contiguous.1 ("hello").data ("f").data,
    chunk_positions_contiguous.2 ("a,b\n1,2").data ("f.csv").data _ (by decide)⟩

/-- Whitespace-only strings trim to the empty string. -/
theorem trimStr_eq_nil_of_whitespace (s : Str) (h : ∀ c ∈ s, Char.isWhitespace c) :
    trimStr s = [] := by
  unfold trimStr
  have h1 : s.dropWhile Char.isWhitespace = [] := by
    rw [List.dropWhile_eq_nil_iff]
    exact h
  rw [h1]
  rfl

/-- Every character of every piece of `splitOnChar` is a character of the
original string. -/
theorem mem_of_mem_splitOnChar (sep : Char) :
    ∀ (l : Str) (p : Str), p ∈ splitOnChar sep l → ∀ c ∈ p, c ∈ l := by
  intro l
  induction l with
  | nil =>
    intro p hp c hc
    simp [splitOnChar] at hp
    subst hp
    simp at hc
  | cons a as ih =>
    intro p hp c hc
    by_cases ha : a = sep
    · rw [splitOnChar, if_pos ha] at hp
      rcases List.mem_cons.mp hp with rfl | hp'
      · simp at hc
      · exact List.mem_cons_of_mem a (ih p hp' c hc)
    · rw [splitOnChar, if_neg ha] at hp
      rcases hsp : splitOnChar sep as with _ | ⟨q, qs⟩
      · rw [hsp] at hp
        rcases List.mem_cons.mp hp with rfl | hp'
        · rcases List.mem_cons.mp hc with rfl | hc'
          · exact List.mem_cons_self _ _
          · simp at hc'
        · simp at hp'
      · rw [hsp] at hp
        rcases List.mem_cons.mp hp with rfl | hp'
        · rcases List.mem_cons.mp hc with rfl | hc'
          · exact List.mem_cons_self _ _
          · have hq : q ∈ splitOnChar sep as := by rw [hsp]; exact List.mem_cons_self _ _
            exact List.mem_cons_of_mem a (ih q hq c hc')
        · have hpq : p ∈ splitOnChar sep as := by rw [hsp]; exact List.mem_cons_of_mem q hp'
          exact List.mem_cons_of_mem a (ih p hpq c hc)

/-- C10: on tabular input with no non-blank line (empty or whitespace-only
text) `processCSV` does not return an empty chunk list: the row list is empty
after discarding blank lines and `rows[0].split(',')` dereferences
`undefined`, throwing a `TypeError` (modelled as `none`). -/
theorem processCSV_blank_input_crashes (text fileName : Str)
    (h : ∀ c ∈ text, Char.isWhitespace c) : processCSV text fileName = none := by
  unfold processCSV
  have hrows : ((splitOnChar (Char.ofNat 10) text).map trimStr).filter
      (fun r => 0 < r.length) = [] := by
    rw [List.filter_eq_nil_iff]
    intro r hr
    rcases List.mem_map.mp hr with ⟨p, hp, rfl⟩
    have hpw : ∀ c ∈ p, Char.isWhitespace c :=
      fun c hc => h c (mem_of_mem_splitOnChar (Char.ofNat 10) text p hp c hc)
    rw [trimStr_eq_nil_of_whitespace p hpw]
    simp
  rw [hrows]

/-- Witness for C10 at a concrete whitespace-only text. -/
theorem processCSV_blank_input_crashes_witness :
    (∀ c ∈ (("  \n \n").data : Str), Char.isWhitespace c) ∧
      processCSV ("  \n \n").data ("f.csv").data = none :=
  ⟨by decide, processCSV_blank_input_crashes ("  \n \n").data ("f.csv").data (by decide)⟩

/-- C9 counterexample: for a `.txt` file the thrown message is the fixed
string and does not contain the offending kind `txt` anywhere. -/
theorem unsupported_message_counterexample :
    processFile ⟨("a.txt").data, [], []⟩ = Except.error UNSUPPORTED_MSG ∧
      includes UNSUPPORTED_MSG ("txt").data = false :=
  ⟨rfl, by decide⟩

/-- C9 (amended): a file whose extension is neither `pdf` nor `csv` fails
with the fixed unsupported-format message (which does not name the offending
kind) and produces no chunks. -/
theorem processFile_unsupported_extension (f : FileInput)
    (hpdf : fileExtension f.name ≠ ("pdf").data)
    (hcsv : fileExtension f.name ≠ ("csv").data) :
    processFile f = Except.error UNSUPPORTED_MSG := by
  unfold processFile
  rw [if_neg hpdf, if_neg hcsv]

/-- Witness for C9 at a concrete `.txt` file. -/
theorem processFile_unsupported_extension_witness :
    fileExtension (("a.txt").data : Str) ≠ ("pdf").data ∧
      fileExtension (("a.txt").data : Str) ≠ ("csv").data ∧
      processFile ⟨("a.txt").data, [], []⟩ = Except.error UNSUPPORTED_MSG :=
  ⟨by decide, by decide,
    processFile_unsupported_extension ⟨("a.txt").data, [], []⟩ (by decide) (by decide)⟩

/-- C4 counterexample: for the header row `a,b` and single data row `1`, the
rendered chunk content ends in `b: undefined` — the missing trailing field is
rendered as the text `undefined`, not as the empty string. -/
theorem csv_missing_field_counterexample :
    processCSV ("a,b\n1").data ("f.csv").data =
        some [⟨("f.csv").data, ("[CSV Header: a, b]\na: 1 | b: undefined").data, 0⟩] ∧
      ("[CSV Header: a, b]\na: 1 | b: undefined").data ≠
        ("[CSV Header: a, b]\na: 1 | b: ").data := by decide

/-- C4 (amended): whenever a data row has fewer fields than the header row,
every missing trailing field renders as `name: undefined` (the JavaScript
stringification of the out-of-range access), not as `name: ` with an empty
value. -/
theorem renderFields_missing_field_undefined :
    ∀ (hs vs : List Str) (i : Nat) (h : Str), vs.length ≤ i → hs[i]? = some h →
      (renderFields hs vs)[i]? =
        some (trimStr h ++ (": ").data ++ ("undefined").data) := by
  intro hs
  induction hs with
  | nil =>
    intro vs i h _ hh
    simp at hh
  | cons h0 hs ih =>
    intro vs i h hle hh
    cases i with
    | zero =>
      have hvs : vs = [] := by
        cases vs with
        | nil => rfl
        | cons v vt => simp at hle
      subst hvs
      simp at hh
      subst hh
      simp [renderFields]
    | succ n =>
      rw [List.getElem?_cons_succ] at hh
      have htail : vs.tail.length ≤ n := by
        have := vs.length_tail
        omega
      have := ih vs.tail n h htail hh
      simpa [renderFields] using this

/-- Witness for C4 at the concrete header row `a,b` and value row `1`. -/
theorem renderFields_missing_field_undefined_witness :
    ([("1").data] : List Str).length ≤ 1 ∧
      ([("a").data, ("b").data] : List Str)[1]? = some ("b").data ∧
      (renderFields [("a").data, ("b").data] [("1").data])[1]? =
        some (trimStr ("b").data ++ (": ").data ++ ("undefined").data) :=
  ⟨by decide, by decide,
    renderFields_missing_field_undefined [("a").data, ("b").data] [("1").data] 1
      ("b").data (by decide) (by decide)⟩

/-- C2 counterexample: for the Scenario C knowledge base and query `apple`
the computed scores are not `[1, 0, 1]` — the exact-phrase bonus of 10 also
fires on the matching chunks. -/
theorem scenarioC_scores_counterexample :
    (scoredChunks ("apple").data
        [⟨("kb").data, ("apple banana").data, 0⟩,
          ⟨("kb").data, ("banana cherry").data, 1⟩,
          ⟨("kb").data, ("apple apple cherry").data, 2⟩]).map Prod.snd ≠
      [1, 0, 1] := by decide

/-- C2 (amended): for the Scenario C knowledge base and query `apple` the
scores are `[11, 0, 11]` (exact-phrase bonus 10 plus one term hit, counted
once per term regardless of repetition); the zero-scored chunk is excluded
and the two tied chunks are returned in their original relative order. -/
theorem scenarioC_scores_and_selection :
    (scoredChunks ("apple").data
        [⟨("kb").data, ("apple banana").data, 0⟩,
          ⟨("kb").data, ("banana cherry").data, 1⟩,
          ⟨("kb").data, ("apple apple cherry").data, 2⟩]).map Prod.snd =
      [11, 0, 11] ∧
      findRelevantChunks ("apple").data
        [⟨("kb").data, ("apple banana").data, 0⟩,
          ⟨("kb").data, ("banana cherry").data, 1⟩,
          ⟨("kb").data, ("apple apple cherry").data, 2⟩] 30 =
        [⟨("kb").data, ("apple banana").data, 0⟩,
          ⟨("kb").data, ("apple apple cherry").data, 2⟩] := by decide

/-- C6: for every query whose lower-cased form contains an aggregation
keyword as a substring, and every collection of fewer than 50 chunks,
`findRelevantChunks` takes the small-corpus short-circuit and returns the
whole collection unchanged, in its existing order, without entering the
scoring pipeline. -/
theorem aggregation_small_corpus_returns_all (query : Str) (chunks : List DocumentChunk)
    (limit : Nat)
    (hkw : ∃ kw ∈ AGGREGATION_KEYWORDS, includes (lowerStr query) kw = true)
    (hsize : chunks.length < 50) :
    findRelevantChunks query chunks limit = chunks := by
  have hagg : isAggregation query = true := by
    unfold isAggregation
    rw [List.any_eq_true]
    rcases hkw with ⟨kw, hmem, hinc⟩
    exact ⟨kw, hmem, hinc⟩
  unfold findRelevantChunks
  rw [if_pos ⟨hagg, hsize⟩]

/-- Witness for C6: the Scenario B query (contains `summary`) against a
one-chunk collection. -/
theorem aggregation_small_corpus_returns_all_witness :
    (∃ kw ∈ AGGREGATION_KEYWORDS,
        includes (lowerStr ("give me a summary of everything").data) kw = true) ∧
      ([⟨("kb").data, ("row data").data, 0⟩] : List DocumentChunk).length < 50 ∧
      findRelevantChunks ("give me a summary of everything").data
          [⟨("kb").data, ("row data").data, 0⟩] 30 =
        [⟨("kb").data, ("row data").data, 0⟩] :=
  ⟨by decide, by decide,
    aggregation_small_corpus_returns_all ("give me a summary of everything").data
      [⟨("kb").data, ("row data").data, 0⟩] 30 (by decide) (by decide)⟩

/-- A relation that holds everywhere is pairwise on every list. -/
theorem pairwise_of_true {α : Type} {R : α → α → Prop} (h : ∀ a b, R a b) :
    ∀ l : List α, List.Pairwise R l := by
  intro l
  induction l with
  | nil => exact List.Pairwise.nil
  | cons a t ih => exact List.Pairwise.cons (fun b _ => h a b) ih

/-- C1 counterexample: on a six-chunk knowledge base the empty-string query
does not yield all-zero scores (every chunk gets the exact-phrase bonus,
since the empty string is a substring of everything), and the result is not
the five-chunk fallback prefix. -/
theorem empty_query_counterexample :
    (scoredChunks ("").data
        [⟨("kb").data, ("c0").data, 0⟩, ⟨("kb").data, ("c1").data, 1⟩,
          ⟨("kb").data, ("c2").data, 2⟩, ⟨("kb").data, ("c3").data, 3⟩,
          ⟨("kb").data, ("c4").data, 4⟩, ⟨("kb").data, ("c5").data, 5⟩]).map Prod.snd ≠
      List.replicate 6 0 ∧
      findRelevantChunks ("").data
          [⟨("kb").data, ("c0").data, 0⟩, ⟨("kb").data, ("c1").data, 1⟩,
            ⟨("kb").data, ("c2").data, 2⟩, ⟨("kb").data, ("c3").data, 3⟩,
            ⟨("kb").data, ("c4").data, 4⟩, ⟨("kb").data, ("c5").data, 5⟩] 30 ≠
        ([⟨("kb").data, ("c0").data, 0⟩, ⟨("kb").data, ("c1").data, 1⟩,
            ⟨("kb").data, ("c2").data, 2⟩, ⟨("kb").data, ("c3").data, 3⟩,
            ⟨("kb").data, ("c4").data, 4⟩, ⟨("kb").data, ("c5").data, 5⟩] :
          List DocumentChunk).take 5 := by decide

/-- C1 (amended): the empty-string query yields an empty term set, but every
chunk receives the exact-phrase bonus of 10 (the empty string is a substring
of every content), so no chunk is filtered out and `findRelevantChunks`
returns the first `limit` chunks of the collection in original order through
the normal scored path; the five-chunk empty-match fallback is not taken. -/
theorem empty_query_scores_ten_returns_prefix (chunks : List DocumentChunk) (limit : Nat)
    (h1 : chunks ≠ []) (h2 : 0 < limit) :
    queryTerms ("").data = [] ∧
      (scoredChunks ("").data chunks).map Prod.snd = List.replicate chunks.length 10 ∧
      findRelevantChunks ("").data chunks limit = chunks.take limit := by
  have hterms : queryTerms ("").data = [] := by decide
  have hagg : isAggregation ("").data = false := by decide
  have hscore : ∀ c : DocumentChunk, score ("").data c.content = 10 := by
    intro c
    unfold score
    rw [hterms]
    have hinc : includes (lowerStr c.content) (lowerStr ("").data) = true := by
      unfold includes
      simp [lowerStr]
    rw [hinc]
    simp
  have hscored : scoredChunks ("").data chunks = chunks.map (fun c => (c, 10)) := by
    unfold scoredChunks
    apply List.map_congr_left
    intro c _
    rw [hscore c]
  have hsnd : (scoredChunks ("").data chunks).map Prod.snd =
      List.replicate chunks.length 10 := by
    rw [hscored, List.map_map]
    rw [show (Prod.snd ∘ fun c : DocumentChunk => (c, (10 : Nat))) =
        fun _ => (10 : Nat) from rfl]
    rw [List.map_const']
  refine ⟨hterms, hsnd, ?_⟩
  have hrel : relevantOf ("").data chunks limit = chunks.take limit := by
    unfold relevantOf
    rw [hscored]
    have hfilter : (chunks.map (fun c => (c, (10 : Nat)))).filter
        (fun item => decide (0 < item.2)) = chunks.map (fun c => (c, 10)) := by
      rw [List.filter_eq_self]
      intro a ha
      rcases List.mem_map.mp ha with ⟨c, _, rfl⟩
      simp
    rw [hfilter]
    have hsorted : (chunks.map (fun c => (c, (10 : Nat)))).insertionSort byScoreDesc =
        chunks.map (fun c => (c, 10)) := by
      apply List.Sorted.insertionSort_eq
      refine List.pairwise_map.mpr ?_
      exact pairwise_of_true (fun a b => Nat.le_refl 10) chunks
    rw [hsorted, hagg]
    simp only [Bool.false_eq_true, if_false]
    rw [← List.map_take, List.map_map]
    rw [show (Prod.fst ∘ fun c : DocumentChunk => (c, (10 : Nat))) =
        fun c : DocumentChunk => c from rfl]
    exact List.map_id' _
  have hne : relevantOf ("").data chunks limit ≠ [] := by
    rw [hrel]
    intro hcon
    rcases List.take_eq_nil_iff.mp hcon with h0 | h0
    · omega
    · exact h1 h0
  have hnotsc : ¬(isAggregation ("").data = true ∧ chunks.length < 50) := by
    intro hcon
    rw [hagg] at hcon
    exact Bool.false_ne_true hcon.1
  unfold findRelevantChunks
  rw [if_neg hnotsc, if_neg (fun hcon => hne hcon.1)]
  exact hrel

/-- Witness for C1 at a concrete one-chunk collection and the default limit. -/
theorem empty_query_scores_ten_returns_prefix_witness :
    ([⟨("kb").data, ("c0").data, 0⟩] : List DocumentChunk) ≠ [] ∧ 0 < 30 ∧
      (queryTerms ("").data = [] ∧
        (scoredChunks ("").data [⟨("kb").data, ("c0").data, 0⟩]).map Prod.snd =
          List.replicate ([⟨("kb").data, ("c0").data, 0⟩] : List DocumentChunk).length 10 ∧
        findRelevantChunks ("").data [⟨("kb").data, ("c0").data, 0⟩] 30 =
          ([⟨("kb").data, ("c0").data, 0⟩] : List DocumentChunk).take 30) :=
  ⟨by decide, by decide,
    empty_query_scores_ten_returns_prefix [⟨("kb").data, ("c0").data, 0⟩] 30
      (by decide) (by decide)⟩

/-- Members of the scored list carry exactly the score of their chunk. -/
theorem snd_of_mem_scoredChunks (query : Str) (chunks : List DocumentChunk)
    (x : DocumentChunk × Nat) (hx : x ∈ scoredChunks query chunks) :
    x.2 = score query x.1.content := by
  rcases List.mem_map.mp hx with ⟨c, _, rfl⟩
  rfl

/-- Inserting into a list under the descending-score order either prepends
the element to the score class `s` (when it has score `s`: everything passed
over has a strictly larger score) or leaves the class untouched. -/
theorem filter_orderedInsert_score (s : Nat) (a : DocumentChunk × Nat) :
    ∀ l : List (DocumentChunk × Nat),
      (l.orderedInsert byScoreDesc a).filter (fun x => decide (x.2 = s)) =
        if a.2 = s then a :: l.filter (fun x => decide (x.2 = s))
        else l.filter (fun x => decide (x.2 = s)) := by
  intro l
  induction l with
  | nil =>
    simp only [List.orderedInsert_nil]
    by_cases ha : a.2 = s
    · rw [if_pos ha]
      simp [List.filter_cons, ha]
    · rw [if_neg ha]
      simp [List.filter_cons, ha]
  | cons b l ih =>
    rw [List.orderedInsert]
    by_cases hr : byScoreDesc a b
    · rw [if_pos hr]
      by_cases ha : a.2 = s
      · rw [if_pos ha]
        simp [List.filter_cons, ha]
      · rw [if_neg ha]
        simp [List.filter_cons, ha]
    · rw [if_neg hr]
      have hb : b.2 ≠ s ∨ ¬a.2 = s := by
        by_cases ha : a.2 = s
        · left
          intro hbs
          exact hr (by unfold byScoreDesc; omega)
        · right
          exact ha
      by_cases ha : a.2 = s
      · rw [if_pos ha]
        have hbne : b.2 ≠ s := by
          rcases hb with hb1 | hb2
          · exact hb1
          · exact absurd ha hb2
        rw [List.filter_cons_of_neg (by simp [hbne]),
          List.filter_cons_of_neg (by simp [hbne]), ih, if_pos ha]
      · rw [if_neg ha, List.filter_cons, List.filter_cons, ih, if_neg ha]

/-- The stable descending-score sort does not reorder a fixed score class:
filtering the sorted list to one score value gives exactly the filter of the
unsorted list. -/
theorem filter_insertionSort_score (s : Nat) :
    ∀ l : List (DocumentChunk × Nat),
      ((l.insertionSort byScoreDesc).filter fun x => decide (x.2 = s)) =
        l.filter fun x => decide (x.2 = s) := by
  intro l
  induction l with
  | nil => rfl
  | cons a l ih =>
    rw [List.insertionSort, filter_orderedInsert_score s a, ih]
    by_cases ha : a.2 = s
    · rw [if_pos ha]
      simp [List.filter_cons, ha]
    · rw [if_neg ha]
      simp [List.filter_cons, ha]


/-- C7: on the scored path (no small-corpus short-circuit, no empty-match
fallback) the chunks of any fixed score value appear in the output in the
order they have in the input collection: the restriction of the output to
one score class is a sublist of the input collection (the sort is stable
with original order as the secondary key, and truncation only drops a
suffix). -/
theorem equal_score_ties_keep_input_order (query : Str) (chunks : List DocumentChunk)
    (limit : Nat) (s : Nat)
    (h1 : ¬(isAggregation query = true ∧ chunks.length < 50))
    (h2 : relevantOf query chunks limit ≠ []) :
    List.Sublist
      ((findRelevantChunks query chunks limit).filter
        fun c => decide (score query c.content = s))
      chunks := by
  have hsel : findRelevantChunks query chunks limit = relevantOf query chunks limit := by
    unfold findRelevantChunks
    rw [if_neg h1, if_neg (fun hcon => h2 hcon.1)]
  rw [hsel]
  unfold relevantOf
  rw [List.filter_map]
  have hmem : ∀ x ∈ (((scoredChunks query chunks).filter
        (fun item => decide (0 < item.2))).insertionSort byScoreDesc).take
          (if isAggregation query then limit * 2 else limit),
      x.2 = score query x.1.content := by
    intro x hx
    have hx1 := List.mem_of_mem_take hx
    have hx2 := (List.mem_insertionSort byScoreDesc).mp hx1
    have hx3 := List.mem_of_mem_filter hx2
    exact snd_of_mem_scoredChunks query chunks x hx3
  have hcongr : ((((scoredChunks query chunks).filter
          (fun item => decide (0 < item.2))).insertionSort byScoreDesc).take
            (if isAggregation query then limit * 2 else limit)).filter
          ((fun c => decide (score query c.content = s)) ∘ Prod.fst) =
        ((((scoredChunks query chunks).filter
          (fun item => decide (0 < item.2))).insertionSort byScoreDesc).take
            (if isAggregation query then limit * 2 else limit)).filter
          (fun x => decide (x.2 = s)) := by
    apply List.filter_congr
    intro x hx
    simp only [Function.comp_apply]
    rw [hmem x hx]
  rw [hcongr]
  have hA : List.Sublist
      (((((scoredChunks query chunks).filter
        (fun item => decide (0 < item.2))).insertionSort byScoreDesc).take
          (if isAggregation query then limit * 2 else limit)).filter
        (fun x => decide (x.2 = s)))
      ((((scoredChunks query chunks).filter
        (fun item => decide (0 < item.2))).insertionSort byScoreDesc).filter
        (fun x => decide (x.2 = s))) :=
    (List.take_sublist _ _).filter _
  have hB : List.Sublist
      ((((scoredChunks query chunks).filter
        (fun item => decide (0 < item.2))).insertionSort byScoreDesc).filter
        (fun x => decide (x.2 = s)))
      (scoredChunks query chunks) := by
    rw [filter_insertionSort_score s]
    exact (List.filter_sublist _).trans (List.filter_sublist _)
  have hmap : (scoredChunks query chunks).map Prod.fst = chunks := by
    unfold scoredChunks
    rw [List.map_map]
    exact List.map_id' _
  have hfinal := (hA.trans hB).map Prod.fst
  rw [hmap] at hfinal
  exact hfinal

/-- Witness for C7: the Scenario C query and collection, score class 11. -/
theorem equal_score_ties_keep_input_order_witness :
    ¬(isAggregation ("apple").data = true ∧
        ([⟨("kb").data, ("apple banana").data, 0⟩,
            ⟨("kb").data, ("banana cherry").data, 1⟩,
            ⟨("kb").data, ("apple apple cherry").data, 2⟩] :
          List DocumentChunk).length < 50) ∧
      relevantOf ("apple").data
          [⟨("kb").data, ("apple banana").data, 0⟩,
            ⟨("kb").data, ("banana cherry").data, 1⟩,
            ⟨("kb").data, ("apple apple cherry").data, 2⟩] 30 ≠ [] ∧
      List.Sublist
        ((findRelevantChunks ("apple").data
            [⟨("kb").data, ("apple banana").data, 0⟩,
              ⟨("kb").data, ("banana cherry").data, 1⟩,
              ⟨("kb").data, ("apple apple cherry").data, 2⟩] 30).filter
          fun c => decide (score ("apple").data c.content = 11))
        [⟨("kb").data, ("apple banana").data, 0⟩,
          ⟨("kb").data, ("banana cherry").data, 1⟩,
          ⟨("kb").data, ("apple apple cherry").data, 2⟩] :=
  ⟨by decide, by decide,
    equal_score_ties_keep_input_order ("apple").data
      [⟨("kb").data, ("apple banana").data, 0⟩,
        ⟨("kb").data, ("banana cherry").data, 1⟩,
        ⟨("kb").data, ("apple apple cherry").data, 2⟩] 30 11
      (by decide) (by decide)⟩
